import Mathlib

/-!
# go-lbd item tokens: request encoding, pagination and Meta

A shallow embedding of `itemtokens.go`.

Conventions of the embedding
* A Go `string` is a Lean `String`; `len` is its byte length.
* `fmt.Sprintf` is interpreted for the `%s` verb, the only verb the file uses.
* A Go `error` produced by `fmt.Errorf` is its message; `none` is the nil error.
* A slice result is an `Option (List α)`; `none` is the nil slice.
* Pointers held in slices (`[]*MintList`, `[]*TokenType`) are taken non-nil.
* The transport (`l.Do`), the address predicate (`l.IsAddress`), the base
  `Request` with its constructors and `Encode`, and `json.Unmarshal` are code
  outside this file: they are parameters, gathered in `LBD` and `Lib`.
-/

set_option linter.dupNamespace false

namespace Lbd

/-! ## Strings and the Go library functions the file calls -/

/-- Go's `len` on a string: the number of bytes. -/
def len (s : String) : Int := s.utf8ByteSize

/-- The `%s` interpreter behind `Sprintf`: each `%s` is replaced by the next
argument, inserted verbatim; every other character of the format is copied. -/
def sprintfAux : List Char → List String → List Char
  | '%' :: 's' :: rest, a :: args => a.data ++ sprintfAux rest args
  | c :: rest, args => c :: sprintfAux rest args
  | [], _ => []

/-- The function `fmt.Sprintf`, for formats whose only verb is `%s` and calls
that pass one string per verb (all calls of the file are such). -/
def Sprintf (format : String) (args : List String) : String :=
  ⟨sprintfAux format.data args⟩

/-- The function `strings.Join`. -/
def Join : List String → String → String
  | [], _ => ""
  | [a], _ => a
  | a :: b :: rest, sep => a ++ sep ++ Join (b :: rest) sep

/-- Number of positions of `s` at which `pat` starts. -/
def countOcc (pat : List Char) : List Char → Nat
  | [] => 0
  | c :: s => (if pat.isPrefixOf (c :: s) then 1 else 0) + countOcc pat s

/-- Number of occurrences of the substring `sub` in `s` (as `strings.Count`
counts them for the patterns used here, which cannot overlap themselves). -/
def occurrences (s sub : String) : Nat := countOcc sub.data s.data

/-- The string `s` contains the substring `sub` (`strings.Contains`, for a
non-empty `sub`). -/
def Contains (s sub : String) : Prop := 0 < occurrences s sub

instance (s sub : String) : Decidable (Contains s sub) := by
  unfold Contains; infer_instance

/-- Splitting a string at every comma (`strings.Split(s, ",")`). -/
def splitComma (s : String) : List String :=
  (s.data.splitOn ',').map String.mk

/-- Wrap-around of a Go `int` (64 bit, two's complement). -/
def wrapInt64 (x : Int) : Int := (x + 2 ^ 63) % 2 ^ 64 - 2 ^ 63

/-! ## Meta -/

/-- A Go `map[string]string`, as its lookup function. -/
abbrev GoMap := String → Option String

/-- The struct `Meta`; `data = none` is the nil map of a zero `Meta`. -/
structure Meta where
  data : Option GoMap

def NewMeta : Meta := ⟨some (fun _ => none)⟩

/-- The map assignment `d[key] = value`. -/
def GoMap.assign (d : GoMap) (key value : String) : GoMap :=
  fun k => if k = key then some value else d k

/-- The method `Meta.Set`. The result is `none` when the call panics (an
assignment to an entry of a nil map), otherwise the updated receiver and the
returned error. -/
def Meta.Set (m : Meta) (key value : String) : Option (Meta × Option String) :=
  if len key < 1 ∧ 15 < len key then
    some (m, some (Sprintf "Invalid key length" []))
  else if len value < 1 ∧ 15 < len value then
    some (m, some (Sprintf "Invalid value length" []))
  else
    match m.data with
    | none => none
    | some d => some (⟨some (d.assign key value)⟩, none)

/-- The two functions of `encoding/json` that `Meta` calls, at the type
`map[string]string`: `json.Marshal` and `json.Unmarshal` into a nil map. -/
structure JsonMap (ε : Type) where
  Marshal : Option GoMap → Except ε String
  Unmarshal : String → Option GoMap × Option ε

def Meta.MarshalJSON {ε : Type} (json : JsonMap ε) (m : Meta) : Except ε String :=
  json.Marshal m.data

def UnmarshalMeta {ε : Type} (json : JsonMap ε) (data : String) : Meta × Option ε :=
  let (d, err) := json.Unmarshal data
  (⟨d⟩, err)

/-! ## The collaborators -/

/-- Modelled from the spec: the type `Pager` is declared outside this file;
it "holds `Page int`, `Limit int`, `OrderBy string`". -/
structure Pager where
  Page : Int
  Limit : Int
  OrderBy : String
deriving DecidableEq, Repr

/-- Modelled from the spec: the base type `Request` is declared outside this
file; it "holds HTTP method and path" and carries the pager of a GET. -/
structure Request where
  Method : String
  Path : String
  pager : Pager
deriving DecidableEq, Repr

/-- The transport's answer; only `ResponseData` is read by this file. -/
structure Response where
  ResponseData : String
deriving DecidableEq, Repr

structure Owner where
  Address : String
  Secret : String
deriving DecidableEq, Repr

/-- The client `LBD`: the owner's credentials, the address predicate and the
transport. The transport is stateful: `Do st r signed` answers request `r` in
transport state `st` and gives the next state. -/
structure LBD (σ ε : Type) where
  Owner : Owner
  IsAddress : String → Bool
  Do : σ → Request → Bool → Except ε Response × σ

structure Token where
  TokenIndex : String
  Name : String
  Meta : String
  CreatedAt : Int
  BurnedAt : Int
deriving DecidableEq, Repr

structure TokenType where
  TokenType : String
  Name : String
  Meta : String
  CreatedAt : Int
  TotalSupply : String
  TotalMint : String
  TotalBurn : String
  Token : List Token
deriving DecidableEq, Repr

structure Holder where
  WalletAddress : Option String
  UserID : Option String
  NumberOfIndex : String
deriving DecidableEq, Repr

/-- The functions of the request layer and of `encoding/json` that the file
calls: the request constructors, the base request's `Encode`, and
`json.Unmarshal` at the two slice types the aggregators decode. -/
structure Lib (ε : Type) where
  NewGetRequest : String → Request
  NewPostRequest : String → Request
  NewPutRequest : String → Request
  Encode : Request → String
  unmarshalTokenTypes : String → Except ε (List TokenType)
  unmarshalHolders : String → Except ε (List Holder)

/-! ## Pagination aggregators -/

/-- What a call of an aggregator leaves behind: the two returned values, the
transport's state, and the requests handed to `Do`, in order. -/
structure Outcome (σ ε α : Type) where
  ret : Option (List α)
  err : Option ε
  state : σ
  issued : List Request

/-- The request of one iteration: `NewGetRequest(path)` with `pager.Page` and
`pager.OrderBy` overwritten. -/
def pageRequest {ε : Type} (lib : Lib ε) (path : String) (page : Int) : Request :=
  let r := lib.NewGetRequest path
  { r with pager := { r.pager with Page := page, OrderBy := "asc" } }

/-- The `for` loop of `ListAllNonFungibles`; `none` when the fuel runs out. -/
def ListAllNonFungibles.loop {σ ε : Type} (lib : Lib ε) (l : LBD σ ε) (path : String) :
    Nat → σ → Int → List TokenType → List Request → Option (Outcome σ ε TokenType)
  | 0, _, _, _, _ => none
  | fuel + 1, st, page, all, issued =>
    let r := pageRequest lib path page
    match l.Do st r true with
    | (.error err, st1) => some ⟨none, some err, st1, issued ++ [r]⟩
    | (.ok resp, st1) =>
      match lib.unmarshalTokenTypes resp.ResponseData with
      | .error err => some ⟨none, some err, st1, issued ++ [r]⟩
      | .ok ret =>
        if ret.length = 0 then
          some ⟨some all, none, st1, issued ++ [r]⟩
        else
          ListAllNonFungibles.loop lib l path fuel st1 (wrapInt64 (page + 1)) (all ++ ret)
            (issued ++ [r])

def ListAllNonFungibles {σ ε : Type} (lib : Lib ε) (l : LBD σ ε) (contractId : String)
    (fuel : Nat) (st : σ) : Option (Outcome σ ε TokenType) :=
  let path := Sprintf "/v1/item-tokens/%s/non-fungibles" [contractId]
  ListAllNonFungibles.loop lib l path fuel st 1 [] []

/-- The `for` loop of `RetrieveHolderOfSpecificNonFungible`; `none` when the
fuel runs out. -/
def RetrieveHolderOfSpecificNonFungible.loop {σ ε : Type} (lib : Lib ε) (l : LBD σ ε)
    (path : String) :
    Nat → σ → Int → List Holder → List Request → Option (Outcome σ ε Holder)
  | 0, _, _, _, _ => none
  | fuel + 1, st, page, all, issued =>
    let r := pageRequest lib path page
    match l.Do st r true with
    | (.error err, st1) => some ⟨none, some err, st1, issued ++ [r]⟩
    | (.ok resp, st1) =>
      match lib.unmarshalHolders resp.ResponseData with
      | .error err => some ⟨none, some err, st1, issued ++ [r]⟩
      | .ok ret =>
        if (ret.length : Int) < r.pager.Limit then
          some ⟨some (all ++ ret), none, st1, issued ++ [r]⟩
        else
          RetrieveHolderOfSpecificNonFungible.loop lib l path fuel st1 (wrapInt64 (page + 1))
            (all ++ ret) (issued ++ [r])

def RetrieveHolderOfSpecificNonFungible {σ ε : Type} (lib : Lib ε) (l : LBD σ ε)
    (contractId tokenType : String) (fuel : Nat) (st : σ) : Option (Outcome σ ε Holder) :=
  let path := Sprintf "/v1/item-tokens/%s/non-fungibles/%s/holders" [contractId, tokenType]
  RetrieveHolderOfSpecificNonFungible.loop lib l path fuel st 1 [] []

/-! ## Request builders -/

structure CreateNonFungibleRequest where
  Request : Request
  OwnerAddress : String
  OwnerSecret : String
  Name : String
  Meta : String

def CreateNonFungibleRequest.Encode {ε : Type} (lib : Lib ε) (r : CreateNonFungibleRequest) :
    String :=
  let base := lib.Encode r.Request
  Sprintf "%s?meta=%s&name=%s&ownerAddress=%s&ownerSecret=%s"
    [base, r.Meta, r.Name, r.OwnerAddress, r.OwnerSecret]

structure UpdateNonFungibleTokenTypeRequest where
  Request : Request
  OwnerAddress : String
  OwnerSecret : String
  Name : String
  Meta : String

def UpdateNonFungibleTokenTypeRequest.Encode {ε : Type} (lib : Lib ε)
    (r : UpdateNonFungibleTokenTypeRequest) : String :=
  let base := lib.Encode r.Request
  Sprintf "%s?meta=%s&name=%s&ownerAddress=%s&ownerSecret=%s"
    [base, r.Meta, r.Name, r.OwnerAddress, r.OwnerSecret]

structure MintNonFungibleRequest where
  Request : Request
  OwnerAddress : String
  OwnerSecret : String
  Name : String
  Meta : String
  ToUserId : String
  ToAddress : String

def MintNonFungibleRequest.Encode {ε : Type} (lib : Lib ε) (r : MintNonFungibleRequest) :
    String :=
  let base := lib.Encode r.Request
  if r.ToUserId ≠ "" then
    Sprintf "%s?meta=%s&name=%s&ownerAddress=%s&ownerSecret=%s&toUserId=%s"
      [base, r.Meta, r.Name, r.OwnerAddress, r.OwnerSecret, r.ToUserId]
  else
    Sprintf "%s?meta=%s&name=%s&ownerAddress=%s&ownerSecret=%s&toAddress=%s"
      [base, r.Meta, r.Name, r.OwnerAddress, r.OwnerSecret, r.ToAddress]

/-- The request `MintNonFungible` builds and hands to `Do`. -/
def MintNonFungible.request {σ ε : Type} (lib : Lib ε) (l : LBD σ ε)
    (contractId tokenType name meta to_ : String) : MintNonFungibleRequest :=
  let path := Sprintf "/v1/item-tokens/%s/non-fungibles/%s/mint" [contractId, tokenType]
  let r : MintNonFungibleRequest :=
    { Request := lib.NewPostRequest path
      OwnerAddress := l.Owner.Address
      OwnerSecret := l.Owner.Secret
      Name := name
      Meta := meta
      ToUserId := ""
      ToAddress := "" }
  if l.IsAddress to_ then { r with ToAddress := to_ } else { r with ToUserId := to_ }

structure MintList where
  TokenType : String
  Name : String
  Meta : String
deriving DecidableEq, Repr

structure MintMultipleNonFungibleRequest where
  Request : Request
  OwnerAddress : String
  OwnerSecret : String
  MintList : List MintList
  ToUserId : String
  ToAddress : String

/-- The local `mintList` of `MintMultipleNonFungibleRequest.Encode`: the three
slices filled by the `range` loop, joined and formatted. -/
def MintMultipleNonFungibleRequest.mintListParam (r : MintMultipleNonFungibleRequest) : String :=
  let names := r.MintList.map (fun m => m.Name)
  let metas := r.MintList.map (fun m => m.Meta)
  let TokenTypes := r.MintList.map (fun m => m.TokenType)
  Sprintf "mintList.meta=%s&mintList.name=%s&mintList.tokenType=%s"
    [Join metas ",", Join names ",", Join TokenTypes ","]

def MintMultipleNonFungibleRequest.Encode {ε : Type} (lib : Lib ε)
    (r : MintMultipleNonFungibleRequest) : String :=
  let base := lib.Encode r.Request
  let mintList := r.mintListParam
  if r.ToUserId ≠ "" then
    Sprintf "%s?%s&ownerAddress=%s&ownerSecret=%s&toUserId=%s"
      [base, mintList, r.OwnerAddress, r.OwnerSecret, r.ToUserId]
  else
    Sprintf "%s?%s&ownerAddress=%s&ownerSecret=%s&toAddress=%s"
      [base, mintList, r.OwnerAddress, r.OwnerSecret, r.ToAddress]

/-- The request `MintMultipleNonFungible` builds and hands to `Do`. -/
def MintMultipleNonFungible.request {σ ε : Type} (lib : Lib ε) (l : LBD σ ε)
    (contractId to_ : String) (mintList : List MintList) : MintMultipleNonFungibleRequest :=
  let path := Sprintf "/v1/item-tokens/%s/non-fungibles/multi-mint" [contractId]
  let r : MintMultipleNonFungibleRequest :=
    { Request := lib.NewPostRequest path
      OwnerAddress := l.Owner.Address
      OwnerSecret := l.Owner.Secret
      MintList := mintList
      ToUserId := ""
      ToAddress := "" }
  if l.IsAddress to_ then { r with ToAddress := to_ } else { r with ToUserId := to_ }

structure UpdateNonFungibleInformationRequest where
  Request : Request
  OwnerAddress : String
  OwnerSecret : String
  Name : String
  Meta : String

def UpdateNonFungibleInformationRequest.Encode {ε : Type} (lib : Lib ε)
    (r : UpdateNonFungibleInformationRequest) : String :=
  let base := lib.Encode r.Request
  if r.Meta ≠ "" then
    Sprintf "%s?meta=%s&name=%s&ownerAddress=%s&ownerSecret=%s"
      [base, r.Meta, r.Name, r.OwnerAddress, r.OwnerSecret]
  else
    Sprintf "%s?name=%s&ownerAddress=%s&ownerSecret=%s"
      [base, r.Name, r.OwnerAddress, r.OwnerSecret]

structure UpdateList where
  TokenType : String
  TokenIndex : String
deriving DecidableEq, Repr

structure UpdateMultipleFungibleTokenIconsRequest where
  Request : Request
  UpdateList : List UpdateList

def UpdateMultipleFungibleTokenIconsRequest.Encode {ε : Type} (lib : Lib ε)
    (r : UpdateMultipleFungibleTokenIconsRequest) : String :=
  let base := lib.Encode r.Request
  let types := r.UpdateList.map (fun m => m.TokenType)
  let indexes := r.UpdateList.map (fun m => m.TokenIndex)
  let updateList := Sprintf "updateList.tokenIndex=%s&updateList.tokenType=%s"
    [Join indexes ",", Join types ","]
  Sprintf "%s?%s" [base, updateList]

/-- The request `UpdateMultipleFungibleTokenIcons` builds and hands to `Do`. -/
def UpdateMultipleFungibleTokenIcons.request {ε : Type} (lib : Lib ε)
    (contactId : String) (updateList : List UpdateList) :
    UpdateMultipleFungibleTokenIconsRequest :=
  let path := Sprintf "/v1/item-tokens/%s/non-fungibles/icon" [contactId]
  { Request := lib.NewPutRequest path, UpdateList := updateList }

/-! ## Notions used to state the properties -/

/-- Total number of occurrences of `pat` in the strings of a list. -/
def sumOcc (xs : List String) (sub : String) : Nat :=
  (xs.map (fun x => occurrences x sub)).sum

/-- No string of the list contains `sub`. -/
def NoneContains (xs : List String) (sub : String) : Prop :=
  ∀ x ∈ xs, ¬ Contains x sub

/-- The strings `MintNonFungible` inserts verbatim into the query string. -/
def MintNonFungible.values {σ ε : Type} (lib : Lib ε) (l : LBD σ ε)
    (contractId tokenType name meta to_ : String) : List String :=
  [lib.Encode (MintNonFungible.request lib l contractId tokenType name meta to_).Request,
    meta, name, l.Owner.Address, l.Owner.Secret, to_]

/-- The strings `MintMultipleNonFungible` inserts verbatim into the query
string. -/
def MintMultipleNonFungible.values {σ ε : Type} (lib : Lib ε) (l : LBD σ ε)
    (contractId to_ : String) (mintList : List MintList) : List String :=
  [lib.Encode (MintMultipleNonFungible.request lib l contractId to_ mintList).Request,
    l.Owner.Address, l.Owner.Secret, to_] ++
  mintList.map (fun m => m.Meta) ++ mintList.map (fun m => m.Name) ++
  mintList.map (fun m => m.TokenType)

/-- The transport, asked for page `i + 1` in state `s i`, answers with a
payload that decodes to `pages i` and moves to state `s (i + 1)`. -/
def Answers {σ ε α : Type} (l : LBD σ ε) (decode : String → Except ε (List α))
    (req : Int → Request) (s : Nat → σ) (pages : Nat → List α) (i : Nat) : Prop :=
  ∃ resp, l.Do (s i) (req (i + 1)) true = (.ok resp, s (i + 1)) ∧
    decode resp.ResponseData = .ok (pages i)

/-- The request for page `i + 1`, issued in state `s i`, fails with `e`: the
transport returns `e`, or it answers and the payload fails to decode with `e`.
The transport moves to state `s (i + 1)`. -/
def Fails {σ ε α : Type} (l : LBD σ ε) (decode : String → Except ε (List α))
    (req : Int → Request) (s : Nat → σ) (e : ε) (i : Nat) : Prop :=
  l.Do (s i) (req (i + 1)) true = (.error e, s (i + 1)) ∨
  ∃ resp, l.Do (s i) (req (i + 1)) true = (.ok resp, s (i + 1)) ∧
    decode resp.ResponseData = .error e

/-- Pages `j + 1, ..., j + n` in page order, concatenated. -/
def concatPages {α : Type} (pages : Nat → List α) (j n : Nat) : List α :=
  ((List.range' j n).map pages).flatten

/-- The requests for pages `j + 1, ..., j + n`, in page order. -/
def requests (req : Int → Request) (j n : Nat) : List Request :=
  (List.range' j n).map (fun (i : Nat) => req ((i : Int) + 1))

/-! ## Concrete collaborators, for evaluating the definitions -/

/-- A token type record, as `exampleLib` decodes it. -/
def exampleTokenType : TokenType := ⟨"10000001", "n", "m", 0, "1", "1", "0", []⟩

/-- A holder record, as `exampleLib` decodes it. -/
def exampleHolder : Holder := ⟨none, some "U1", "1"⟩

/-- A request layer whose base `Encode` is the request's path, whose GET
requests carry the page size 10, and whose JSON decoder reads a payload of `n`
characters as `n` copies of a fixed record and rejects the payload `!`. -/
def exampleLib : Lib String where
  NewGetRequest := fun path => ⟨"GET", path, ⟨1, 10, "desc"⟩⟩
  NewPostRequest := fun path => ⟨"POST", path, ⟨0, 0, ""⟩⟩
  NewPutRequest := fun path => ⟨"PUT", path, ⟨0, 0, ""⟩⟩
  Encode := fun r => r.Path
  unmarshalTokenTypes := fun data =>
    if data = "!" then .error "invalid character" else
      .ok (List.replicate data.length exampleTokenType)
  unmarshalHolders := fun data =>
    if data = "!" then .error "invalid character" else
      .ok (List.replicate data.length exampleHolder)

/-- A client whose `IsAddress` accepts the strings starting with `tlink` and
whose transport counts its calls and answers page `p` with `pages[p-1]`: a
payload, or a transport failure for `none` and past the end. -/
def exampleLBD (pages : List (Option String)) : LBD Nat String where
  Owner := ⟨"tlink1owner", "s3cret"⟩
  IsAddress := fun s => "tlink".data.isPrefixOf s.data
  Do := fun calls r _ =>
    match pages[(r.pager.Page - 1).toNat]? with
    | some (some data) => (.ok ⟨data⟩, calls + 1)
    | _ => (.error "connection refused", calls + 1)

/-- A JSON codec that knows one text: `null`, which `json.Unmarshal` accepts
with the nil error while leaving the map nil; every other text is rejected. -/
def exampleJson : JsonMap String where
  Marshal := fun d =>
    match d with
    | none => .ok "null"
    | some _ => .error "unsupported"
  Unmarshal := fun data =>
    if data = "null" then (none, none) else (none, some "invalid character")

/-- Page `i + 1` of a listing whose pages hold `sizes[i]` records (none past
the end). -/
def examplePages {α : Type} (x : α) (sizes : List Nat) (i : Nat) : List α :=
  List.replicate (sizes.getD i 0) x

/-- A mint list of one item whose meta holds a comma. -/
def exampleMintList : List MintList := [⟨"10000001", "sword", "lv:1,atk:7"⟩]

/-! ## Lemmas on strings -/

theorem isPrefixOf_append_sep (d : Char) (B : List Char) :
    ∀ (pat A : List Char), d ∉ pat →
      pat.isPrefixOf (A ++ d :: B) = pat.isPrefixOf A
  | [], A, _ => by simp
  | p :: ps, [], h => by
    have hpd : ¬ p = d := fun e => h (by simp [e])
    simp [List.isPrefixOf, hpd]
  | p :: ps, a :: A, h => by
    have ih := isPrefixOf_append_sep d B ps A (fun hm => h (List.mem_cons_of_mem _ hm))
    simp [List.isPrefixOf, ih]

/-- An occurrence cannot straddle a character that is not in the pattern. -/
theorem countOcc_append_sep (pat : List Char) (d : Char) (A B : List Char)
    (hd : d ∉ pat) (hne : pat ≠ []) :
    countOcc pat (A ++ d :: B) = countOcc pat A + countOcc pat B := by
  induction A with
  | nil =>
    cases pat with
    | nil => exact absurd rfl hne
    | cons p ps =>
      have hpd : ¬ p = d := fun e => hd (by simp [e])
      simp [countOcc, List.isPrefixOf, hpd]
  | cons a A ih =>
    have h := isPrefixOf_append_sep d B pat (a :: A) hd
    simp only [List.cons_append] at h ⊢
    simp only [countOcc, h, ih]
    omega

/-- For a non-empty pattern, `countOcc` is positive exactly when the pattern
is a contiguous part of the string. -/
theorem countOcc_pos_iff_infix (pat : List Char) (hne : pat ≠ []) :
    ∀ s : List Char, 0 < countOcc pat s ↔ pat <:+: s
  | [] => by
    simp [countOcc, hne]
  | c :: s => by
    have ih := countOcc_pos_iff_infix pat hne s
    rw [List.infix_cons_iff, ← ih, ← List.isPrefixOf_iff_prefix]
    simp only [countOcc]
    by_cases hp : pat.isPrefixOf (c :: s) = true
    · simp [hp]
    · simp [hp]

/-- For a non-empty `sub`, `Contains s sub` says that `sub` is a contiguous
part of `s`. -/
theorem Contains_iff_infix (s sub : String) (hne : sub.data ≠ []) :
    Contains s sub ↔ sub.data <:+: s.data :=
  countOcc_pos_iff_infix sub.data hne s.data

theorem not_Contains_iff (s sub : String) : ¬ Contains s sub ↔ occurrences s sub = 0 := by
  unfold Contains; omega

theorem NoneContains_cons (x : String) (xs : List String) (sub : String) :
    NoneContains (x :: xs) sub ↔ occurrences x sub = 0 ∧ NoneContains xs sub := by
  simp [NoneContains, not_Contains_iff]

theorem NoneContains_append (xs ys : List String) (sub : String) :
    NoneContains (xs ++ ys) sub ↔ NoneContains xs sub ∧ NoneContains ys sub := by
  simp only [NoneContains, List.mem_append]
  constructor
  · intro h
    exact ⟨fun x hx => h x (Or.inl hx), fun x hx => h x (Or.inr hx)⟩
  · rintro ⟨h1, h2⟩ x (hx | hx)
    · exact h1 x hx
    · exact h2 x hx

theorem sumOcc_eq_zero (xs : List String) (sub : String) (h : NoneContains xs sub) :
    sumOcc xs sub = 0 := by
  induction xs with
  | nil => rfl
  | cons x xs ih =>
    rw [NoneContains_cons] at h
    simp only [sumOcc, List.map_cons, List.sum_cons] at ih ⊢
    rw [h.1, ih h.2]

theorem Join_comma_data : ∀ xs : List String,
    (Join xs ",").data = [','].intercalate (xs.map String.data)
  | [] => rfl
  | [a] => by simp [Join, List.intercalate]
  | a :: b :: rest => by
    have ih := Join_comma_data (b :: rest)
    simp only [Join, String.data_append, ih]
    simp [List.intercalate]

theorem countOcc_Join (pat : List Char) (hd : ',' ∉ pat) (hne : pat ≠ []) :
    ∀ xs : List String,
      countOcc pat (Join xs ",").data = (xs.map (fun x => countOcc pat x.data)).sum
  | [] => by simp [Join, countOcc]
  | [a] => by simp [Join]
  | a :: b :: rest => by
    have ih := countOcc_Join pat hd hne (b :: rest)
    simp only [Join, String.data_append]
    rw [List.append_assoc, List.singleton_append, countOcc_append_sep pat ',' _ _ hd hne, ih]
    simp

theorem countOcc_pos_of_infix (pat : List Char) (hne : pat ≠ []) (B : List Char) :
    ∀ A : List Char, 0 < countOcc pat (A ++ (pat ++ B))
  | [] => by
    cases pat with
    | nil => exact absurd rfl hne
    | cons p ps =>
      have h : (p :: ps).isPrefixOf (p :: ps ++ B) = true :=
        List.isPrefixOf_iff_prefix.mpr (List.prefix_append _ _)
      simp only [List.nil_append, List.cons_append] at h ⊢
      simp [countOcc, h]
  | a :: A => by
    have ih := countOcc_pos_of_infix pat hne B A
    rw [List.cons_append, countOcc]
    omega

theorem Contains_of_eq (s a sub b : String) (h : s = a ++ sub ++ b) (hne : sub.data ≠ []) :
    Contains s sub := by
  subst h
  unfold Contains occurrences
  simp only [String.data_append, List.append_assoc]
  exact countOcc_pos_of_infix sub.data hne b.data a.data

theorem countOcc_singleton (c : Char) :
    ∀ s : List Char, countOcc [c] s = 0 ↔ c ∉ s
  | [] => by simp [countOcc]
  | a :: s => by
    have ih := countOcc_singleton c s
    by_cases h : c = a
    · simp [countOcc, List.isPrefixOf, h]
    · have h2 : ¬ a = c := fun e => h e.symm
      simp [countOcc, List.isPrefixOf, h, ih]

theorem splitComma_Join (xs : List String) (hne : xs ≠ [])
    (h : ∀ x ∈ xs, ¬ Contains x ",") : splitComma (Join xs ",") = xs := by
  unfold splitComma
  rw [Join_comma_data, List.splitOn_intercalate]
  · rw [List.map_map]
    have : (String.mk ∘ String.data) = id := by funext s; rfl
    rw [this, List.map_id]
  · intro l hl
    rw [List.mem_map] at hl
    obtain ⟨x, hx, rfl⟩ := hl
    have := h x hx
    rw [not_Contains_iff] at this
    exact (countOcc_singleton ',' x.data).mp this
  · simpa using hne

/-! ## Occurrences of a parameter name in the encoded requests -/

theorem occ_update_meta {ε : Type} (lib : Lib ε)
    (r : UpdateNonFungibleInformationRequest) :
    occurrences (r.Encode lib) "meta=" =
      occurrences (lib.Encode r.Request) "meta=" +
      (if r.Meta ≠ "" then 1 + occurrences r.Meta "meta=" else 0) +
      occurrences r.Name "meta=" + occurrences r.OwnerAddress "meta=" +
      occurrences r.OwnerSecret "meta=" := by
  unfold UpdateNonFungibleInformationRequest.Encode
  by_cases hm : r.Meta = ""
  · simp [hm, occurrences, Sprintf, sprintfAux, countOcc_append_sep, countOcc, List.isPrefixOf]
    omega
  · simp [hm, occurrences, Sprintf, sprintfAux, countOcc_append_sep, countOcc, List.isPrefixOf]
    omega

theorem occ_mint {ε : Type} (lib : Lib ε) (r : MintNonFungibleRequest) :
    occurrences (r.Encode lib) "toAddress=" =
      occurrences (lib.Encode r.Request) "toAddress=" + occurrences r.Meta "toAddress=" +
      occurrences r.Name "toAddress=" + occurrences r.OwnerAddress "toAddress=" +
      occurrences r.OwnerSecret "toAddress=" +
      (if r.ToUserId ≠ "" then occurrences r.ToUserId "toAddress="
        else 1 + occurrences r.ToAddress "toAddress=") ∧
    occurrences (r.Encode lib) "toUserId=" =
      occurrences (lib.Encode r.Request) "toUserId=" + occurrences r.Meta "toUserId=" +
      occurrences r.Name "toUserId=" + occurrences r.OwnerAddress "toUserId=" +
      occurrences r.OwnerSecret "toUserId=" +
      (if r.ToUserId ≠ "" then 1 + occurrences r.ToUserId "toUserId="
        else occurrences r.ToAddress "toUserId=") := by
  unfold MintNonFungibleRequest.Encode
  by_cases hm : r.ToUserId = ""
  · simp [hm, occurrences, Sprintf, sprintfAux, countOcc_append_sep, countOcc, List.isPrefixOf]
    omega
  · simp [hm, occurrences, Sprintf, sprintfAux, countOcc_append_sep, countOcc, List.isPrefixOf]
    omega

theorem occ_mintMultiple {ε : Type} (lib : Lib ε) (r : MintMultipleNonFungibleRequest) :
    occurrences (r.Encode lib) "toAddress=" =
      occurrences (lib.Encode r.Request) "toAddress=" +
      sumOcc (r.MintList.map (fun m => m.Meta)) "toAddress=" +
      sumOcc (r.MintList.map (fun m => m.Name)) "toAddress=" +
      sumOcc (r.MintList.map (fun m => m.TokenType)) "toAddress=" +
      occurrences r.OwnerAddress "toAddress=" +
      occurrences r.OwnerSecret "toAddress=" +
      (if r.ToUserId ≠ "" then occurrences r.ToUserId "toAddress="
        else 1 + occurrences r.ToAddress "toAddress=") ∧
    occurrences (r.Encode lib) "toUserId=" =
      occurrences (lib.Encode r.Request) "toUserId=" +
      sumOcc (r.MintList.map (fun m => m.Meta)) "toUserId=" +
      sumOcc (r.MintList.map (fun m => m.Name)) "toUserId=" +
      sumOcc (r.MintList.map (fun m => m.TokenType)) "toUserId=" +
      occurrences r.OwnerAddress "toUserId=" +
      occurrences r.OwnerSecret "toUserId=" +
      (if r.ToUserId ≠ "" then 1 + occurrences r.ToUserId "toUserId="
        else occurrences r.ToAddress "toUserId=") := by
  unfold MintMultipleNonFungibleRequest.Encode MintMultipleNonFungibleRequest.mintListParam
  have hA := countOcc_Join "toAddress=".data (by decide) (by decide)
  have hU := countOcc_Join "toUserId=".data (by decide) (by decide)
  by_cases hm : r.ToUserId = ""
  · simp [hm, occurrences, sumOcc, Sprintf, sprintfAux, countOcc_append_sep, countOcc,
      List.isPrefixOf] at hA hU ⊢
    simp [hA, hU]
    omega
  · simp [hm, occurrences, sumOcc, Sprintf, sprintfAux, countOcc_append_sep, countOcc,
      List.isPrefixOf] at hA hU ⊢
    simp [hA, hU]
    omega

theorem mint_req_fields {σ ε : Type} (lib : Lib ε) (l : LBD σ ε)
    (contractId tokenType name meta to_ : String) :
    let r := MintNonFungible.request lib l contractId tokenType name meta to_
    r.Meta = meta ∧ r.Name = name ∧ r.OwnerAddress = l.Owner.Address ∧
      r.OwnerSecret = l.Owner.Secret ∧
      r.ToUserId = (if l.IsAddress to_ then "" else to_) ∧
      r.ToAddress = (if l.IsAddress to_ then to_ else "") := by
  cases h : l.IsAddress to_ <;> simp [MintNonFungible.request, h]

theorem mintMultiple_req_fields {σ ε : Type} (lib : Lib ε) (l : LBD σ ε)
    (contractId to_ : String) (mintList : List MintList) :
    let r := MintMultipleNonFungible.request lib l contractId to_ mintList
    r.MintList = mintList ∧ r.OwnerAddress = l.Owner.Address ∧
      r.OwnerSecret = l.Owner.Secret ∧
      r.ToUserId = (if l.IsAddress to_ then "" else to_) ∧
      r.ToAddress = (if l.IsAddress to_ then to_ else "") := by
  cases h : l.IsAddress to_ <;> simp [MintMultipleNonFungible.request, h]

/-! ## Lemmas on the aggregator loops -/

theorem wrapInt64_eq (x : Int) (h0 : 0 ≤ x) (h1 : x < 2 ^ 63) : wrapInt64 x = x := by
  unfold wrapInt64
  omega

theorem concatPages_succ {α : Type} (pages : Nat → List α) (j n : Nat) :
    concatPages pages j (n + 1) = pages j ++ concatPages pages (j + 1) n := by
  simp [concatPages, List.range'_succ]

theorem concatPages_snoc {α : Type} (pages : Nat → List α) (j n : Nat) :
    concatPages pages j (n + 1) = concatPages pages j n ++ pages (j + n) := by
  simp [concatPages, List.range'_concat]

theorem requests_succ (req : Int → Request) (j n : Nat) :
    requests req j (n + 1) = req (j + 1) :: requests req (j + 1) n := by
  simp [requests, List.range'_succ]

theorem requests_snoc (req : Int → Request) (j n : Nat) :
    requests req j (n + 1) = requests req j n ++ [req ((j + n : Nat) + 1)] := by
  simp [requests, List.range'_concat]

theorem requests_numbering {ε : Type} (lib : Lib ε) (path : String) (n : Nat) :
    (requests (pageRequest lib path) 0 n).map (fun r => (r.pager.Page, r.pager.OrderBy)) =
      (List.range' 1 n).map (fun (p : Nat) => ((p : Int), "asc")) := by
  simp only [requests, List.map_map]
  rw [List.range'_eq_map_range, List.range'_eq_map_range, List.map_map, List.map_map]
  apply List.map_congr_left
  intro i _
  simp [pageRequest]
  omega

/-- After `n` non-empty pages the loop of `ListAllNonFungibles` stands at
page `j + n + 1` with the pages appended. -/
theorem ListAll_loop_advance {σ ε : Type} (lib : Lib ε) (l : LBD σ ε) (path : String)
    (s : Nat → σ) (pages : Nat → List TokenType) :
    ∀ (n j fuel : Nat) (all : List TokenType) (issued : List Request),
      j + n + 1 < 2 ^ 63 →
      (∀ i, i < n → Answers l lib.unmarshalTokenTypes (pageRequest lib path) s pages (j + i) ∧
        pages (j + i) ≠ []) →
      ListAllNonFungibles.loop lib l path (fuel + n) (s j) ((j : Nat) + 1) all issued =
        ListAllNonFungibles.loop lib l path fuel (s (j + n)) ((j + n : Nat) + 1)
          (all ++ concatPages pages j n) (issued ++ requests (pageRequest lib path) j n) := by
  intro n
  induction n with
  | zero =>
    intro j fuel all issued _ _
    simp [concatPages, requests]
  | succ n ih =>
    intro j fuel all issued hb hpages
    obtain ⟨⟨resp, hdo, hdec⟩, hne⟩ := hpages 0 (by omega)
    simp only [Nat.add_zero] at hdo hdec hne
    have hjn : j + 1 + n = j + (n + 1) := by omega
    have hw : wrapInt64 ((j : Int) + 1 + 1) = ((j + 1 : Nat) : Int) + 1 := by
      rw [wrapInt64_eq] <;> push_cast <;> omega
    have hrec := ih (j + 1) fuel (all ++ pages j) (issued ++ [pageRequest lib path (j + 1)])
      (by omega)
      (fun i hi => by
        have h3 : j + 1 + i = j + (i + 1) := by omega
        rw [h3]; exact hpages (i + 1) (by omega))
    rw [show fuel + (n + 1) = (fuel + n) + 1 by omega, ListAllNonFungibles.loop]
    simp only [hdo, hdec, List.length_eq_zero, hne, if_false, hw]
    rw [hrec, concatPages_succ, requests_succ (pageRequest lib path) j n, hjn]
    simp

/-- After `n` full pages the loop of `RetrieveHolderOfSpecificNonFungible`
stands at page `j + n + 1` with the pages appended. -/
theorem Retrieve_loop_advance {σ ε : Type} (lib : Lib ε) (l : LBD σ ε) (path : String)
    (s : Nat → σ) (pages : Nat → List Holder) :
    ∀ (n j fuel : Nat) (all : List Holder) (issued : List Request),
      j + n + 1 < 2 ^ 63 →
      (∀ i, i < n → Answers l lib.unmarshalHolders (pageRequest lib path) s pages (j + i) ∧
        (lib.NewGetRequest path).pager.Limit ≤ (pages (j + i)).length) →
      RetrieveHolderOfSpecificNonFungible.loop lib l path (fuel + n) (s j) ((j : Nat) + 1)
          all issued =
        RetrieveHolderOfSpecificNonFungible.loop lib l path fuel (s (j + n)) ((j + n : Nat) + 1)
          (all ++ concatPages pages j n) (issued ++ requests (pageRequest lib path) j n) := by
  intro n
  induction n with
  | zero =>
    intro j fuel all issued _ _
    simp [concatPages, requests]
  | succ n ih =>
    intro j fuel all issued hb hpages
    obtain ⟨⟨resp, hdo, hdec⟩, hfull⟩ := hpages 0 (by omega)
    simp only [Nat.add_zero] at hdo hdec hfull
    have hjn : j + 1 + n = j + (n + 1) := by omega
    have hw : wrapInt64 ((j : Int) + 1 + 1) = ((j + 1 : Nat) : Int) + 1 := by
      rw [wrapInt64_eq] <;> push_cast <;> omega
    have hlim : ¬ ((pages j).length : Int) < (pageRequest lib path ((j : Int) + 1)).pager.Limit := by
      simp only [pageRequest]; omega
    have hrec := ih (j + 1) fuel (all ++ pages j) (issued ++ [pageRequest lib path (j + 1)])
      (by omega)
      (fun i hi => by
        have h3 : j + 1 + i = j + (i + 1) := by omega
        rw [h3]; exact hpages (i + 1) (by omega))
    rw [show fuel + (n + 1) = (fuel + n) + 1 by omega, RetrieveHolderOfSpecificNonFungible.loop]
    simp only [hdo, hdec, hlim, if_false, hw]
    rw [hrec, concatPages_succ, requests_succ (pageRequest lib path) j n, hjn]
    simp

/-! ## The claims -/

set_option maxRecDepth 100000

/-- C1 (amended). For every target `to_` and both mint operations. When
`IsAddress(to_)` holds, or `to_` is the empty string, the query string contains
`toAddress=`; when `to_` is a non-empty string that `IsAddress` rejects, it
contains `toUserId=`. In each case the other parameter name is absent from the
query string provided none of the strings inserted verbatim (the base
request's encoding, the meta, name and mint-list fields, the owner's address
and secret, and `to_`) contains it. -/
theorem mint_target_parameter {σ ε : Type} (lib : Lib ε) (l : LBD σ ε)
    (contractId tokenType name meta to_ : String) (mintList : List MintList) :
    (l.IsAddress to_ = true ∨ to_ = "" →
      Contains ((MintNonFungible.request lib l contractId tokenType name meta to_).Encode lib)
        "toAddress=" ∧
      Contains ((MintMultipleNonFungible.request lib l contractId to_ mintList).Encode lib)
        "toAddress=" ∧
      (NoneContains (MintNonFungible.values lib l contractId tokenType name meta to_)
          "toUserId=" →
        ¬ Contains ((MintNonFungible.request lib l contractId tokenType name meta to_).Encode lib)
          "toUserId=") ∧
      (NoneContains (MintMultipleNonFungible.values lib l contractId to_ mintList)
          "toUserId=" →
        ¬ Contains ((MintMultipleNonFungible.request lib l contractId to_ mintList).Encode lib)
          "toUserId=")) ∧
    (l.IsAddress to_ = false ∧ to_ ≠ "" →
      Contains ((MintNonFungible.request lib l contractId tokenType name meta to_).Encode lib)
        "toUserId=" ∧
      Contains ((MintMultipleNonFungible.request lib l contractId to_ mintList).Encode lib)
        "toUserId=" ∧
      (NoneContains (MintNonFungible.values lib l contractId tokenType name meta to_)
          "toAddress=" →
        ¬ Contains ((MintNonFungible.request lib l contractId tokenType name meta to_).Encode lib)
          "toAddress=") ∧
      (NoneContains (MintMultipleNonFungible.values lib l contractId to_ mintList)
          "toAddress=" →
        ¬ Contains ((MintMultipleNonFungible.request lib l contractId to_ mintList).Encode lib)
          "toAddress=")) := by
  obtain ⟨a1, a2⟩ := occ_mint lib (MintNonFungible.request lib l contractId tokenType name meta to_)
  obtain ⟨b1, b2⟩ :=
    occ_mintMultiple lib (MintMultipleNonFungible.request lib l contractId to_ mintList)
  obtain ⟨f1, f2, f3, f4, f5, f6⟩ := mint_req_fields lib l contractId tokenType name meta to_
  obtain ⟨g1, g2, g3, g4, g5⟩ := mintMultiple_req_fields lib l contractId to_ mintList
  rw [f1, f2, f3, f4, f5, f6] at a1 a2
  rw [g1, g2, g3, g4, g5] at b1 b2
  have hu : (l.IsAddress to_ = true ∨ to_ = "") →
      (if l.IsAddress to_ = true then "" else to_) = "" := by
    rintro (h | h) <;> simp [h]
  have hv : (l.IsAddress to_ = false ∧ to_ ≠ "") →
      (if l.IsAddress to_ = true then "" else to_) ≠ "" := by
    rintro ⟨h, h2⟩; simpa [h] using h2
  refine ⟨fun h => ?_, fun h => ?_⟩
  · have hu1 := hu h
    simp only [hu1, ne_eq, not_true_eq_false, if_false] at a1 a2 b1 b2
    refine ⟨by unfold Contains; omega, by unfold Contains; omega, fun hn => ?_, fun hn => ?_⟩
    · simp only [MintNonFungible.values, NoneContains_cons] at hn
      obtain ⟨n1, n2, n3, n4, n5, n6, -⟩ := hn
      have n7 : occurrences (if l.IsAddress to_ = true then to_ else "") "toUserId=" = 0 := by
        split
        · exact n6
        · rfl
      rw [not_Contains_iff]; omega
    · simp only [MintMultipleNonFungible.values, NoneContains_append, NoneContains_cons] at hn
      obtain ⟨⟨⟨⟨n1, n2, n3, n4, -⟩, m1⟩, m2⟩, m3⟩ := hn
      have n7 : occurrences (if l.IsAddress to_ = true then to_ else "") "toUserId=" = 0 := by
        split
        · exact n4
        · rfl
      have s1 := sumOcc_eq_zero _ _ m1
      have s2 := sumOcc_eq_zero _ _ m2
      have s3 := sumOcc_eq_zero _ _ m3
      rw [not_Contains_iff]; omega
  · have hv1 := hv h
    have hto : (if l.IsAddress to_ = true then "" else to_) = to_ := by simp [h.1]
    simp only [ne_eq, hv1, not_false_eq_true, if_true] at a1 a2 b1 b2
    rw [hto] at a1 a2 b1 b2
    refine ⟨by unfold Contains; omega, by unfold Contains; omega, fun hn => ?_, fun hn => ?_⟩
    · simp only [MintNonFungible.values, NoneContains_cons] at hn
      obtain ⟨n1, n2, n3, n4, n5, n6, -⟩ := hn
      rw [not_Contains_iff]; omega
    · simp only [MintMultipleNonFungible.values, NoneContains_append, NoneContains_cons] at hn
      obtain ⟨⟨⟨⟨n1, n2, n3, n4, -⟩, m1⟩, m2⟩, m3⟩ := hn
      have s1 := sumOcc_eq_zero _ _ m1
      have s2 := sumOcc_eq_zero _ _ m2
      have s3 := sumOcc_eq_zero _ _ m3
      rw [not_Contains_iff]; omega

theorem mint_target_parameter_witness :
    (Contains
      ((MintNonFungible.request exampleLib (exampleLBD []) "c1" "10000001" "sword" "lv:1"
        "tlink1abc").Encode exampleLib) "toAddress=" ∧
     ¬ Contains
      ((MintNonFungible.request exampleLib (exampleLBD []) "c1" "10000001" "sword" "lv:1"
        "tlink1abc").Encode exampleLib) "toUserId=") ∧
    (Contains
      ((MintMultipleNonFungible.request exampleLib (exampleLBD []) "c1" "U1"
        exampleMintList).Encode exampleLib) "toUserId=" ∧
     ¬ Contains
      ((MintMultipleNonFungible.request exampleLib (exampleLBD []) "c1" "U1"
        exampleMintList).Encode exampleLib) "toAddress=") :=
  ⟨⟨((mint_target_parameter exampleLib (exampleLBD []) "c1" "10000001" "sword" "lv:1"
        "tlink1abc" exampleMintList).1 (Or.inl (by decide))).1,
    ((mint_target_parameter exampleLib (exampleLBD []) "c1" "10000001" "sword" "lv:1"
        "tlink1abc" exampleMintList).1 (Or.inl (by decide))).2.2.1
      (by unfold NoneContains; decide)⟩,
   ⟨((mint_target_parameter exampleLib (exampleLBD []) "c1" "10000001" "sword" "lv:1"
        "U1" exampleMintList).2 ⟨by decide, by decide⟩).2.1,
    ((mint_target_parameter exampleLib (exampleLBD []) "c1" "10000001" "sword" "lv:1"
        "U1" exampleMintList).2 ⟨by decide, by decide⟩).2.2.2
      (by unfold NoneContains; decide)⟩⟩

theorem mint_target_parameter_counterexample :
    (exampleLBD []).IsAddress "" = false ∧
    (MintNonFungible.request exampleLib (exampleLBD []) "c1" "10000001" "sword" "lv:1" "").Encode
        exampleLib =
      "/v1/item-tokens/c1/non-fungibles/10000001/mint?meta=lv:1&name=sword&ownerAddress=tlink1owner&ownerSecret=s3cret&toAddress=" ∧
    ¬ Contains
      ((MintNonFungible.request exampleLib (exampleLBD []) "c1" "10000001" "sword" "lv:1" "").Encode
        exampleLib) "toUserId=" ∧
    (MintMultipleNonFungible.request exampleLib (exampleLBD []) "c1" "" exampleMintList).Encode
        exampleLib =
      "/v1/item-tokens/c1/non-fungibles/multi-mint?mintList.meta=lv:1,atk:7&mintList.name=sword&mintList.tokenType=10000001&ownerAddress=tlink1owner&ownerSecret=s3cret&toAddress=" ∧
    ¬ Contains
      ((MintMultipleNonFungible.request exampleLib (exampleLBD []) "c1" "" exampleMintList).Encode
        exampleLib) "toUserId=" ∧
    (exampleLBD []).IsAddress "tlink1abc" = true ∧
    Contains
      ((MintNonFungible.request exampleLib (exampleLBD []) "c1" "10000001" "sword" "toUserId=U1"
        "tlink1abc").Encode exampleLib) "toUserId=" := by
  decide

/-- C2 (amended). `MintMultipleNonFungibleRequest.Encode` writes, in this
order, `mintList.meta`, `mintList.name` and `mintList.tokenType`, each the
comma-join of that field over the mint list in input order. For a non-empty
mint list, when no item's value of a field holds a comma, splitting the
joined value of that field at the commas gives back exactly the field's values
of the N items, in input order (so N elements, the i-th from the i-th item). -/
theorem mintList_alignment {ε : Type} (lib : Lib ε) (r : MintMultipleNonFungibleRequest) :
    r.Encode lib =
      lib.Encode r.Request ++ "?mintList.meta=" ++ Join (r.MintList.map (fun m => m.Meta)) "," ++
        "&mintList.name=" ++ Join (r.MintList.map (fun m => m.Name)) "," ++
        "&mintList.tokenType=" ++ Join (r.MintList.map (fun m => m.TokenType)) "," ++
        "&ownerAddress=" ++ r.OwnerAddress ++ "&ownerSecret=" ++ r.OwnerSecret ++
        (if r.ToUserId ≠ "" then "&toUserId=" ++ r.ToUserId else "&toAddress=" ++ r.ToAddress) ∧
    (r.MintList ≠ [] →
      ((∀ m ∈ r.MintList, ¬ Contains m.Meta ",") →
        splitComma (Join (r.MintList.map (fun m => m.Meta)) ",") =
          r.MintList.map (fun m => m.Meta)) ∧
      ((∀ m ∈ r.MintList, ¬ Contains m.Name ",") →
        splitComma (Join (r.MintList.map (fun m => m.Name)) ",") =
          r.MintList.map (fun m => m.Name)) ∧
      ((∀ m ∈ r.MintList, ¬ Contains m.TokenType ",") →
        splitComma (Join (r.MintList.map (fun m => m.TokenType)) ",") =
          r.MintList.map (fun m => m.TokenType))) := by
  constructor
  · apply String.ext
    unfold MintMultipleNonFungibleRequest.Encode MintMultipleNonFungibleRequest.mintListParam
    by_cases hm : r.ToUserId = "" <;> simp [hm, Sprintf, sprintfAux]
  · intro hne
    refine ⟨fun h => ?_, fun h => ?_, fun h => ?_⟩ <;>
    · apply splitComma_Join
      · simpa using hne
      · intro x hx
        rw [List.mem_map] at hx
        obtain ⟨m, hm, rfl⟩ := hx
        exact h m hm

theorem mintList_alignment_witness :
    splitComma (Join
        ((MintMultipleNonFungibleRequest.mk ⟨"POST", "/p", ⟨0, 0, ""⟩⟩ "a" "s"
          [⟨"t1", "x", "a"⟩, ⟨"t2", "y", "b"⟩, ⟨"t1", "x", "a"⟩] "U1" "").MintList.map
          (fun m => m.Meta)) ",") =
      (MintMultipleNonFungibleRequest.mk ⟨"POST", "/p", ⟨0, 0, ""⟩⟩ "a" "s"
          [⟨"t1", "x", "a"⟩, ⟨"t2", "y", "b"⟩, ⟨"t1", "x", "a"⟩] "U1" "").MintList.map
          (fun m => m.Meta) :=
  ((mintList_alignment exampleLib
    (MintMultipleNonFungibleRequest.mk ⟨"POST", "/p", ⟨0, 0, ""⟩⟩ "a" "s"
      [⟨"t1", "x", "a"⟩, ⟨"t2", "y", "b"⟩, ⟨"t1", "x", "a"⟩] "U1" "")).2 (by decide)).1
    (by decide)

theorem mintList_alignment_counterexample :
    exampleMintList.length = 1 ∧
    (MintMultipleNonFungible.request exampleLib (exampleLBD []) "c1" "U1"
        exampleMintList).Encode exampleLib =
      "/v1/item-tokens/c1/non-fungibles/multi-mint?mintList.meta=lv:1,atk:7&mintList.name=sword&mintList.tokenType=10000001&ownerAddress=tlink1owner&ownerSecret=s3cret&toUserId=U1" ∧
    splitComma (Join (exampleMintList.map (fun m => m.Meta)) ",") = ["lv:1", "atk:7"] ∧
    (splitComma (Join (exampleMintList.map (fun m => m.Meta)) ",")).length = 2 ∧
    Join ([] : List String) "," = Join [""] "," := by
  decide

/-- C3 (amended). For every `UpdateNonFungibleInformationRequest` whose base
encoding, `Name`, `OwnerAddress` and `OwnerSecret` do not contain `meta=`: if
`Meta` is empty the output of `Encode` does not contain `meta=`; if `Meta` is
non-empty and does not itself contain `meta=`, then `meta=` occurs in the
output exactly once. -/
theorem UpdateNonFungibleInformation_meta_param {ε : Type} (lib : Lib ε)
    (r : UpdateNonFungibleInformationRequest)
    (hfree : NoneContains [lib.Encode r.Request, r.Name, r.OwnerAddress, r.OwnerSecret]
      "meta=") :
    (r.Meta = "" → ¬ Contains (r.Encode lib) "meta=") ∧
    (r.Meta ≠ "" → ¬ Contains r.Meta "meta=" → occurrences (r.Encode lib) "meta=" = 1) := by
  have h := occ_update_meta lib r
  simp only [NoneContains_cons] at hfree
  obtain ⟨n1, n2, n3, n4, -⟩ := hfree
  constructor
  · intro hm
    rw [not_Contains_iff, h, if_neg (by simp [hm])]
    omega
  · intro hm hc
    rw [not_Contains_iff] at hc
    rw [h, if_pos hm]
    omega

theorem UpdateNonFungibleInformation_meta_param_witness :
    ¬ Contains
      ((UpdateNonFungibleInformationRequest.mk ⟨"PUT", "/p", ⟨0, 0, ""⟩⟩ "a" "s" "n"
        "").Encode exampleLib) "meta=" ∧
    occurrences
      ((UpdateNonFungibleInformationRequest.mk ⟨"PUT", "/p", ⟨0, 0, ""⟩⟩ "a" "s" "n"
        "lv:1").Encode exampleLib) "meta=" = 1 :=
  ⟨(UpdateNonFungibleInformation_meta_param exampleLib
      (UpdateNonFungibleInformationRequest.mk ⟨"PUT", "/p", ⟨0, 0, ""⟩⟩ "a" "s" "n" "")
      (by unfold NoneContains; decide)).1 rfl,
   (UpdateNonFungibleInformation_meta_param exampleLib
      (UpdateNonFungibleInformationRequest.mk ⟨"PUT", "/p", ⟨0, 0, ""⟩⟩ "a" "s" "n" "lv:1")
      (by unfold NoneContains; decide)).2 (by decide) (by decide)⟩

theorem UpdateNonFungibleInformation_meta_param_counterexample :
    (UpdateNonFungibleInformationRequest.mk ⟨"PUT", "/p", ⟨0, 0, ""⟩⟩ "a" "s" "meta=x" "").Meta
      = "" ∧
    Contains
      ((UpdateNonFungibleInformationRequest.mk ⟨"PUT", "/p", ⟨0, 0, ""⟩⟩ "a" "s" "meta=x"
        "").Encode exampleLib) "meta=" ∧
    (UpdateNonFungibleInformationRequest.mk ⟨"PUT", "/p", ⟨0, 0, ""⟩⟩ "a" "s" "n" "meta=1").Meta
      ≠ "" ∧
    occurrences
      ((UpdateNonFungibleInformationRequest.mk ⟨"PUT", "/p", ⟨0, 0, ""⟩⟩ "a" "s" "n"
        "meta=1").Encode exampleLib) "meta=" = 2 := by
  decide

/-- C4. `ListAllNonFungibles`, empty-stop. If the transport answers the
requests for pages `1..k` with payloads that decode to non-empty lists and the
request for page `k + 1` with one that decodes to the empty list (`k + 1`
below `2^63`, so the page counter does not wrap), then with any fuel above `k`
the call returns, with the nil error, the concatenation of pages
`1..k` in page order, and the requests it issued are exactly the `k + 1`
requests for pages `1, 2, ..., k + 1`, each with `OrderBy` `asc`. -/
theorem ListAllNonFungibles_empty_stop {σ ε : Type} (lib : Lib ε) (l : LBD σ ε)
    (contractId : String) (s : Nat → σ) (pages : Nat → List TokenType) (k fuel : Nat)
    (hk : k + 1 < 2 ^ 63) (hfuel : k < fuel)
    (hpages : ∀ i, i < k →
      Answers l lib.unmarshalTokenTypes
        (pageRequest lib (Sprintf "/v1/item-tokens/%s/non-fungibles" [contractId])) s pages i ∧
      pages i ≠ [])
    (hlast : Answers l lib.unmarshalTokenTypes
      (pageRequest lib (Sprintf "/v1/item-tokens/%s/non-fungibles" [contractId])) s pages k)
    (hempty : pages k = []) :
    ListAllNonFungibles lib l contractId fuel (s 0) =
      some ⟨some (concatPages pages 0 k), none, s (k + 1),
        requests (pageRequest lib (Sprintf "/v1/item-tokens/%s/non-fungibles" [contractId]))
          0 (k + 1)⟩ ∧
    (requests (pageRequest lib (Sprintf "/v1/item-tokens/%s/non-fungibles" [contractId]))
        0 (k + 1)).map (fun r => (r.pager.Page, r.pager.OrderBy)) =
      (List.range' 1 (k + 1)).map (fun (p : Nat) => ((p : Int), "asc")) := by
  refine ⟨?_, requests_numbering lib _ (k + 1)⟩
  obtain ⟨f, rfl⟩ : ∃ f, fuel = (f + 1) + k := ⟨fuel - k - 1, by omega⟩
  have hadv := ListAll_loop_advance lib l
    (Sprintf "/v1/item-tokens/%s/non-fungibles" [contractId]) s pages k 0 (f + 1) [] []
    (by omega) (fun i hi => by rw [Nat.zero_add]; exact hpages i hi)
  obtain ⟨resp, hdo, hdec⟩ := hlast
  simp only [Nat.zero_add, Nat.cast_zero, zero_add, List.nil_append] at hadv
  unfold ListAllNonFungibles
  simp only []
  rw [hadv, ListAllNonFungibles.loop]
  simp only [hdo, hdec, hempty, List.length_nil, if_true]
  rw [requests_snoc]
  simp

theorem ListAllNonFungibles_empty_stop_witness :
    ListAllNonFungibles exampleLib (exampleLBD [some "ab", some "c", some ""]) "c1" 3 0 =
      some ⟨some (concatPages (examplePages exampleTokenType [2, 1]) 0 2), none, 3,
        requests (pageRequest exampleLib (Sprintf "/v1/item-tokens/%s/non-fungibles" ["c1"]))
          0 3⟩ ∧
    (requests (pageRequest exampleLib (Sprintf "/v1/item-tokens/%s/non-fungibles" ["c1"]))
        0 3).map (fun r => (r.pager.Page, r.pager.OrderBy)) =
      (List.range' 1 3).map (fun (p : Nat) => ((p : Int), "asc")) :=
  ListAllNonFungibles_empty_stop exampleLib (exampleLBD [some "ab", some "c", some ""]) "c1"
    (fun i => i) (examplePages exampleTokenType [2, 1]) 2 3 (by norm_num) (by norm_num)
    (fun i hi => by
      interval_cases i
      · exact ⟨⟨⟨"ab"⟩, rfl, rfl⟩, by decide⟩
      · exact ⟨⟨⟨"c"⟩, rfl, rfl⟩, by decide⟩)
    ⟨⟨""⟩, rfl, rfl⟩ rfl

/-- C5. `RetrieveHolderOfSpecificNonFungible`, short-page stop. With `L` the
`Limit` of the pager of `NewGetRequest(path)`: if pages `1..k` each decode to
at least `L` holders and page `k + 1` to fewer than `L` (`k + 1` below `2^63`),
then with any fuel above `k` the call returns, with the nil error, the concatenation of pages
`1..k+1` in page order, the short page included, after exactly the `k + 1`
requests for pages `1..k+1`. -/
theorem RetrieveHolder_short_page_stop {σ ε : Type} (lib : Lib ε) (l : LBD σ ε)
    (contractId tokenType : String) (s : Nat → σ) (pages : Nat → List Holder) (k fuel : Nat)
    (hk : k + 1 < 2 ^ 63) (hfuel : k < fuel)
    (hpages : ∀ i, i < k →
      Answers l lib.unmarshalHolders
        (pageRequest lib
          (Sprintf "/v1/item-tokens/%s/non-fungibles/%s/holders" [contractId, tokenType]))
        s pages i ∧
      (lib.NewGetRequest
          (Sprintf "/v1/item-tokens/%s/non-fungibles/%s/holders" [contractId, tokenType])
        ).pager.Limit ≤ (pages i).length)
    (hlast : Answers l lib.unmarshalHolders
      (pageRequest lib
        (Sprintf "/v1/item-tokens/%s/non-fungibles/%s/holders" [contractId, tokenType]))
      s pages k)
    (hshort : ((pages k).length : Int) <
      (lib.NewGetRequest
          (Sprintf "/v1/item-tokens/%s/non-fungibles/%s/holders" [contractId, tokenType])
        ).pager.Limit) :
    RetrieveHolderOfSpecificNonFungible lib l contractId tokenType fuel (s 0) =
      some ⟨some (concatPages pages 0 (k + 1)), none, s (k + 1),
        requests (pageRequest lib
          (Sprintf "/v1/item-tokens/%s/non-fungibles/%s/holders" [contractId, tokenType]))
          0 (k + 1)⟩ := by
  obtain ⟨f, rfl⟩ : ∃ f, fuel = (f + 1) + k := ⟨fuel - k - 1, by omega⟩
  have hadv := Retrieve_loop_advance lib l
    (Sprintf "/v1/item-tokens/%s/non-fungibles/%s/holders" [contractId, tokenType])
    s pages k 0 (f + 1) [] []
    (by omega) (fun i hi => by rw [Nat.zero_add]; exact hpages i hi)
  obtain ⟨resp, hdo, hdec⟩ := hlast
  simp only [Nat.zero_add, Nat.cast_zero, zero_add, List.nil_append] at hadv
  have hlim : ((pages k).length : Int) <
      (pageRequest lib
        (Sprintf "/v1/item-tokens/%s/non-fungibles/%s/holders" [contractId, tokenType])
        ((k : Int) + 1)).pager.Limit := by
    simpa only [pageRequest] using hshort
  unfold RetrieveHolderOfSpecificNonFungible
  simp only []
  rw [hadv, RetrieveHolderOfSpecificNonFungible.loop]
  simp only [hdo, hdec, hlim, if_true]
  rw [requests_snoc, concatPages_snoc]
  simp

theorem RetrieveHolder_short_page_stop_witness :
    RetrieveHolderOfSpecificNonFungible exampleLib
        (exampleLBD [some "aaaaaaaaaa", some "bbbbbbbbbb", some "cccc"]) "c1" "10000001" 3 0 =
      some ⟨some (concatPages (examplePages exampleHolder [10, 10, 4]) 0 3), none, 3,
        requests (pageRequest exampleLib
          (Sprintf "/v1/item-tokens/%s/non-fungibles/%s/holders" ["c1", "10000001"])) 0 3⟩ ∧
    (concatPages (examplePages exampleHolder [10, 10, 4]) 0 3).length = 24 :=
  ⟨RetrieveHolder_short_page_stop exampleLib
    (exampleLBD [some "aaaaaaaaaa", some "bbbbbbbbbb", some "cccc"]) "c1" "10000001"
    (fun i => i) (examplePages exampleHolder [10, 10, 4]) 2 3 (by norm_num) (by norm_num)
    (fun i hi => by
      interval_cases i
      · exact ⟨⟨⟨"aaaaaaaaaa"⟩, rfl, rfl⟩, by decide⟩
      · exact ⟨⟨⟨"bbbbbbbbbb"⟩, rfl, rfl⟩, by decide⟩)
    ⟨⟨"cccc"⟩, rfl, rfl⟩ (by decide), by decide⟩

/-- C6. Both aggregators. If pages `1..k` are answered and decoded without
meeting the stop condition and the request for page `k + 1` fails with `e`
(the transport returns `e`, or the payload fails to decode with `e`), then with
any fuel above `k` the call
returns the nil slice together with `e`, and the requests issued are exactly
those for pages `1..k+1`: none after the failing page. -/
theorem aggregators_abort_on_error {σ ε : Type} (lib : Lib ε) (l : LBD σ ε)
    (contractId tokenType : String) (s : Nat → σ) (k fuel : Nat) (e : ε)
    (hk : k + 1 < 2 ^ 63) (hfuel : k < fuel) :
    (∀ pages : Nat → List TokenType,
      (∀ i, i < k →
        Answers l lib.unmarshalTokenTypes
          (pageRequest lib (Sprintf "/v1/item-tokens/%s/non-fungibles" [contractId])) s pages i ∧
        pages i ≠ []) →
      Fails l lib.unmarshalTokenTypes
        (pageRequest lib (Sprintf "/v1/item-tokens/%s/non-fungibles" [contractId])) s e k →
      ListAllNonFungibles lib l contractId fuel (s 0) =
        some ⟨none, some e, s (k + 1),
          requests (pageRequest lib (Sprintf "/v1/item-tokens/%s/non-fungibles" [contractId]))
            0 (k + 1)⟩) ∧
    (∀ pages : Nat → List Holder,
      (∀ i, i < k →
        Answers l lib.unmarshalHolders
          (pageRequest lib
            (Sprintf "/v1/item-tokens/%s/non-fungibles/%s/holders" [contractId, tokenType]))
          s pages i ∧
        (lib.NewGetRequest
            (Sprintf "/v1/item-tokens/%s/non-fungibles/%s/holders" [contractId, tokenType])
          ).pager.Limit ≤ (pages i).length) →
      Fails l lib.unmarshalHolders
        (pageRequest lib
          (Sprintf "/v1/item-tokens/%s/non-fungibles/%s/holders" [contractId, tokenType]))
        s e k →
      RetrieveHolderOfSpecificNonFungible lib l contractId tokenType fuel (s 0) =
        some ⟨none, some e, s (k + 1),
          requests (pageRequest lib
            (Sprintf "/v1/item-tokens/%s/non-fungibles/%s/holders" [contractId, tokenType]))
            0 (k + 1)⟩) := by
  obtain ⟨f, rfl⟩ : ∃ f, fuel = (f + 1) + k := ⟨fuel - k - 1, by omega⟩
  constructor
  · intro pages hpages hfail
    have hadv := ListAll_loop_advance lib l
      (Sprintf "/v1/item-tokens/%s/non-fungibles" [contractId]) s pages k 0 (f + 1) [] []
      (by omega) (fun i hi => by rw [Nat.zero_add]; exact hpages i hi)
    simp only [Nat.zero_add, Nat.cast_zero, zero_add, List.nil_append] at hadv
    unfold ListAllNonFungibles
    simp only []
    rw [hadv, ListAllNonFungibles.loop, requests_snoc]
    rcases hfail with hdo | ⟨resp, hdo, hdec⟩
    · simp [hdo]
    · simp [hdo, hdec]
  · intro pages hpages hfail
    have hadv := Retrieve_loop_advance lib l
      (Sprintf "/v1/item-tokens/%s/non-fungibles/%s/holders" [contractId, tokenType])
      s pages k 0 (f + 1) [] []
      (by omega) (fun i hi => by rw [Nat.zero_add]; exact hpages i hi)
    simp only [Nat.zero_add, Nat.cast_zero, zero_add, List.nil_append] at hadv
    unfold RetrieveHolderOfSpecificNonFungible
    simp only []
    rw [hadv, RetrieveHolderOfSpecificNonFungible.loop, requests_snoc]
    rcases hfail with hdo | ⟨resp, hdo, hdec⟩
    · simp [hdo]
    · simp [hdo, hdec]

theorem aggregators_abort_on_error_witness :
    ListAllNonFungibles exampleLib (exampleLBD [some "ab", none, some "c"]) "c1" 2 0 =
      some ⟨none, some "connection refused", 2,
        requests (pageRequest exampleLib (Sprintf "/v1/item-tokens/%s/non-fungibles" ["c1"]))
          0 2⟩ ∧
    RetrieveHolderOfSpecificNonFungible exampleLib
        (exampleLBD [some "aaaaaaaaaa", some "!", some "c"]) "c1" "10000001" 2 0 =
      some ⟨none, some "invalid character", 2,
        requests (pageRequest exampleLib
          (Sprintf "/v1/item-tokens/%s/non-fungibles/%s/holders" ["c1", "10000001"])) 0 2⟩ :=
  ⟨(aggregators_abort_on_error exampleLib (exampleLBD [some "ab", none, some "c"]) "c1" ""
      (fun i => i) 1 2 "connection refused" (by norm_num) (by norm_num)).1
      (examplePages exampleTokenType [2])
      (fun i hi => by
        interval_cases i
        exact ⟨⟨⟨"ab"⟩, rfl, rfl⟩, by decide⟩)
      (Or.inl rfl),
   (aggregators_abort_on_error exampleLib (exampleLBD [some "aaaaaaaaaa", some "!", some "c"])
      "c1" "10000001" (fun i => i) 1 2 "invalid character" (by norm_num) (by norm_num)).2
      (examplePages exampleHolder [10])
      (fun i hi => by
        interval_cases i
        exact ⟨⟨⟨"aaaaaaaaaa"⟩, rfl, rfl⟩, by decide⟩)
      (Or.inr ⟨⟨"!"⟩, rfl, rfl⟩)⟩

/-- C8 (amended). `Meta.Set` never rejects: for every receiver, key and
value (empty strings and strings longer than 15 bytes included) the call does
not return an error. On a receiver whose map is initialised, as `NewMeta`
builds it and as `Set` leaves it, the call returns the nil error and afterwards
the map holds `value` under `key` while every other key keeps the value it
had. On a receiver whose map is nil the call does not return: the assignment
panics. -/
theorem Meta_Set_never_rejects (m : Meta) (key value : String) :
    (∀ (m1 : Meta) (e : String), m.Set key value ≠ some (m1, some e)) ∧
    (∀ d : GoMap, m.data = some d →
      ∃ d1 : GoMap, m.Set key value = some (⟨some d1⟩, none) ∧
        d1 key = some value ∧ ∀ k, k ≠ key → d1 k = d k) ∧
    (m.data = none → m.Set key value = none) := by
  have h1 : ¬ (len key < 1 ∧ 15 < len key) := by omega
  have h2 : ¬ (len value < 1 ∧ 15 < len value) := by omega
  refine ⟨?_, ?_, ?_⟩
  · intro m1 e
    cases hm : m.data <;> simp [Meta.Set, h1, h2, hm]
  · intro d hm
    refine ⟨d.assign key value, ?_, ?_, ?_⟩
    · simp [Meta.Set, h1, h2, hm]
    · simp [GoMap.assign]
    · intro k hk
      simp [GoMap.assign, hk]
  · intro hm
    simp [Meta.Set, h1, h2, hm]

theorem Meta_Set_never_rejects_witness :
    ∃ d1 : GoMap, NewMeta.Set "" "a value longer than fifteen bytes" =
        some (⟨some d1⟩, none) ∧
      d1 "" = some "a value longer than fifteen bytes" ∧
      ∀ k, k ≠ "" → d1 k = (fun _ => none : GoMap) k :=
  (Meta_Set_never_rejects NewMeta "" "a value longer than fifteen bytes").2.1 (fun _ => none) rfl

theorem Meta_Set_never_rejects_counterexample :
    (UnmarshalMeta exampleJson "null").2 = none ∧
    (UnmarshalMeta exampleJson "null").1.data.isNone = true ∧
    ((UnmarshalMeta exampleJson "null").1.Set "name" "sword").isNone = true ∧
    ((Meta.mk none).Set "name" "sword").isNone = true := by
  decide

/-- C9 (amended). The query strings of `CreateNonFungibleRequest`,
`UpdateNonFungibleTokenTypeRequest`, `MintNonFungibleRequest`,
`MintMultipleNonFungibleRequest` and `UpdateNonFungibleInformationRequest`
contain `ownerAddress=<OwnerAddress>&ownerSecret=<OwnerSecret>`. The request
`UpdateMultipleFungibleTokenIconsRequest` has no owner fields: its query string
is the base encoding followed by `?updateList.tokenIndex=` and
`&updateList.tokenType=` with the comma-joined indexes and types, and nothing
else. -/
theorem owner_credentials_in_query {ε : Type} (lib : Lib ε)
    (r1 : CreateNonFungibleRequest) (r2 : UpdateNonFungibleTokenTypeRequest)
    (r3 : MintNonFungibleRequest) (r4 : MintMultipleNonFungibleRequest)
    (r5 : UpdateNonFungibleInformationRequest)
    (r6 : UpdateMultipleFungibleTokenIconsRequest) :
    Contains (r1.Encode lib)
      ("ownerAddress=" ++ r1.OwnerAddress ++ "&ownerSecret=" ++ r1.OwnerSecret) ∧
    Contains (r2.Encode lib)
      ("ownerAddress=" ++ r2.OwnerAddress ++ "&ownerSecret=" ++ r2.OwnerSecret) ∧
    Contains (r3.Encode lib)
      ("ownerAddress=" ++ r3.OwnerAddress ++ "&ownerSecret=" ++ r3.OwnerSecret) ∧
    Contains (r4.Encode lib)
      ("ownerAddress=" ++ r4.OwnerAddress ++ "&ownerSecret=" ++ r4.OwnerSecret) ∧
    Contains (r5.Encode lib)
      ("ownerAddress=" ++ r5.OwnerAddress ++ "&ownerSecret=" ++ r5.OwnerSecret) ∧
    r6.Encode lib =
      lib.Encode r6.Request ++ "?updateList.tokenIndex=" ++
        Join (r6.UpdateList.map (fun m => m.TokenIndex)) "," ++ "&updateList.tokenType=" ++
        Join (r6.UpdateList.map (fun m => m.TokenType)) "," := by
  refine ⟨?_, ?_, ?_, ?_, ?_, ?_⟩
  · refine Contains_of_eq _ (lib.Encode r1.Request ++ "?meta=" ++ r1.Meta ++ "&name=" ++
      r1.Name ++ "&") _ "" ?_ (by simp)
    apply String.ext
    simp [CreateNonFungibleRequest.Encode, Sprintf, sprintfAux]
  · refine Contains_of_eq _ (lib.Encode r2.Request ++ "?meta=" ++ r2.Meta ++ "&name=" ++
      r2.Name ++ "&") _ "" ?_ (by simp)
    apply String.ext
    simp [UpdateNonFungibleTokenTypeRequest.Encode, Sprintf, sprintfAux]
  · refine Contains_of_eq _ (lib.Encode r3.Request ++ "?meta=" ++ r3.Meta ++ "&name=" ++
      r3.Name ++ "&") _
      (if r3.ToUserId ≠ "" then "&toUserId=" ++ r3.ToUserId else "&toAddress=" ++ r3.ToAddress)
      ?_ (by simp)
    apply String.ext
    unfold MintNonFungibleRequest.Encode
    by_cases hm : r3.ToUserId = "" <;> simp [hm, Sprintf, sprintfAux]
  · refine Contains_of_eq _ (lib.Encode r4.Request ++ "?" ++ r4.mintListParam ++ "&") _
      (if r4.ToUserId ≠ "" then "&toUserId=" ++ r4.ToUserId else "&toAddress=" ++ r4.ToAddress)
      ?_ (by simp)
    apply String.ext
    unfold MintMultipleNonFungibleRequest.Encode
    by_cases hm : r4.ToUserId = "" <;> simp [hm, Sprintf, sprintfAux]
  · by_cases hm : r5.Meta = ""
    · refine Contains_of_eq _ (lib.Encode r5.Request ++ "?name=" ++ r5.Name ++ "&") _ "" ?_
        (by simp)
      apply String.ext
      simp [UpdateNonFungibleInformationRequest.Encode, hm, Sprintf, sprintfAux]
    · refine Contains_of_eq _ (lib.Encode r5.Request ++ "?meta=" ++ r5.Meta ++ "&name=" ++
        r5.Name ++ "&") _ "" ?_ (by simp)
      apply String.ext
      simp [UpdateNonFungibleInformationRequest.Encode, hm, Sprintf, sprintfAux]
  · apply String.ext
    simp [UpdateMultipleFungibleTokenIconsRequest.Encode, Sprintf, sprintfAux]

theorem owner_credentials_in_query_counterexample :
    (UpdateMultipleFungibleTokenIcons.request exampleLib "c1"
        [⟨"10000001", "00000001"⟩, ⟨"10000001", "00000002"⟩]).Encode exampleLib =
      "/v1/item-tokens/c1/non-fungibles/icon?updateList.tokenIndex=00000001,00000002&updateList.tokenType=10000001,10000001" ∧
    ¬ Contains ((UpdateMultipleFungibleTokenIcons.request exampleLib "c1"
        [⟨"10000001", "00000001"⟩, ⟨"10000001", "00000002"⟩]).Encode exampleLib)
      "ownerAddress=" ∧
    ¬ Contains ((UpdateMultipleFungibleTokenIcons.request exampleLib "c1"
        [⟨"10000001", "00000001"⟩, ⟨"10000001", "00000002"⟩]).Encode exampleLib)
      "ownerSecret=" := by
  decide

/-- C10. For every `CreateNonFungibleRequest`, `Encode` returns the base
request's `Encode` followed by `?meta=<Meta>&name=<Name>&ownerAddress=<OwnerAddress>`
and `&ownerSecret=<OwnerSecret>`, in that order, each value inserted verbatim;
two requests that agree on these five strings encode to the same output. -/
theorem CreateNonFungibleRequest_Encode_eq {ε : Type} (lib : Lib ε)
    (r : CreateNonFungibleRequest) :
    r.Encode lib = lib.Encode r.Request ++ "?meta=" ++ r.Meta ++ "&name=" ++ r.Name ++
      "&ownerAddress=" ++ r.OwnerAddress ++ "&ownerSecret=" ++ r.OwnerSecret ∧
    ∀ (ε1 : Type) (lib1 : Lib ε1) (r1 : CreateNonFungibleRequest),
      lib1.Encode r1.Request = lib.Encode r.Request → r1.Meta = r.Meta → r1.Name = r.Name →
      r1.OwnerAddress = r.OwnerAddress → r1.OwnerSecret = r.OwnerSecret →
      r1.Encode lib1 = r.Encode lib := by
  have key : ∀ (ε1 : Type) (lib1 : Lib ε1) (r1 : CreateNonFungibleRequest),
      r1.Encode lib1 = lib1.Encode r1.Request ++ "?meta=" ++ r1.Meta ++ "&name=" ++ r1.Name ++
        "&ownerAddress=" ++ r1.OwnerAddress ++ "&ownerSecret=" ++ r1.OwnerSecret := by
    intro ε1 lib1 r1
    apply String.ext
    simp [CreateNonFungibleRequest.Encode, Sprintf, sprintfAux]
  refine ⟨key ε lib r, ?_⟩
  intro ε1 lib1 r1 h1 h2 h3 h4 h5
  rw [key ε1 lib1 r1, key ε lib r, h1, h2, h3, h4, h5]

theorem CreateNonFungibleRequest_Encode_eq_witness :
    (CreateNonFungibleRequest.mk ⟨"POST", "/v1/item-tokens/c1/non-fungibles", ⟨0, 0, ""⟩⟩
        "tlink1&x" "s=?" "a b" "k=v&x?").Encode exampleLib =
      "/v1/item-tokens/c1/non-fungibles?meta=k=v&x?&name=a b&ownerAddress=tlink1&x&ownerSecret=s=?" :=
  (CreateNonFungibleRequest_Encode_eq exampleLib
    (CreateNonFungibleRequest.mk ⟨"POST", "/v1/item-tokens/c1/non-fungibles", ⟨0, 0, ""⟩⟩
        "tlink1&x" "s=?" "a b" "k=v&x?")).1.trans (by decide)

end Lbd
